import Mathlib

/-!
Verification of the Lucas-Kanade residual module (`menpofit/lucaskanade/residual.py`).

The five residual variants (`SSD`, `GaborFourier`, `ECC`, `GradientImages`,
`GradientCorrelation`) are embedded shallowly: every numpy array becomes a
function into `ℝ` (or `ℂ` for the Fourier variant), machine floats become exact
reals, and operations of the code that produce undefined values in floating
point (division by a zero denominator, inversion of a singular matrix) are
modelled as `Option`-valued, returning `none` exactly where numpy yields
non-finite values or scipy raises.

Flattening conventions follow the shape comments of the source: an image is a
`channels × height × width` array, the flat pixel index of `(y, x)` is
`y * width + x`, and a `(a × b)`-shaped array flattens row-major to index
`i = a_index * b + b_index`.

External collaborators of the module (the `menpo` image library and
`scipy`/`numpy` primitives) are not part of this repository; they are modelled
from the spec's external-interface contract (section 6) and are marked
`Modelled from the spec:` in their doc comments.
-/

open scoped Classical
open Matrix

noncomputable section

/-- Modelled from the spec: `numpy` median of a list of values (sort, take the
middle element, or the average of the two middle elements for an even count).
Used by `GradientImages._regularise_gradients`. -/
def np_median (l : List ℝ) : ℝ :=
  let s := l.mergeSort (· ≤ ·)
  if l.length % 2 = 1 then s.getD (l.length / 2) 0
  else (s.getD (l.length / 2 - 1) 0 + s.getD (l.length / 2) 0) / 2

/-- Modelled from the spec: `np.angle(x + 1j * y)`, the phase of a complex
number, used by `GradientCorrelation` to turn gradients into orientations. -/
def np_angle (x y : ℝ) : ℝ :=
  Complex.arg ((x : ℂ) + (y : ℂ) * Complex.I)

/-- Modelled from the spec: `np.sqrt` on a complex operand (principal branch),
which is what the `error` property computes when the cached error vector is
complex (the `GaborFourier` variant). -/
def np_csqrt (z : ℂ) : ℂ := z ^ ((1 : ℂ) / 2)

/-- Modelled from the spec: `scipy.linalg.norm`, the Euclidean norm of a
flattened array. -/
def np_norm {m : ℕ} (v : Fin m → ℝ) : ℝ := Real.sqrt (∑ i, v i ^ 2)

/-- Modelled from the spec: `scipy.linalg.inv`.  Returns `none` when the matrix
is singular (scipy raises `LinAlgError` there, and raises `ValueError` when the
input contains the non-finite values that our `none`s stand for). -/
def scipy_inv {p : ℕ} (H : Matrix (Fin p) (Fin p) ℝ) :
    Option (Matrix (Fin p) (Fin p) ℝ) :=
  if H.det = 0 then none else some H⁻¹

/-- An image of the `menpo` collaborator interface: `ch` channels over an
`h × w` pixel grid (the claims' scenarios carry no mask, so the pixel domain is
the full rectangle and `n_pixels = h * w`).  `pix c y x` is the intensity of
channel `c` at row `y`, column `x`; values outside the shape are irrelevant. -/
structure Img where
  h : ℕ
  w : ℕ
  ch : ℕ
  pix : ℕ → ℕ → ℕ → ℝ

/-- Modelled from the spec: `as_vector`, the flattened (channels-first,
row-major) view of an image's pixels. -/
def Img.as_vector (img : Img) : Fin (img.ch * (img.h * img.w)) → ℝ :=
  fun i =>
    img.pix (i.val / (img.h * img.w)) ((i.val % (img.h * img.w)) / img.w)
      ((i.val % (img.h * img.w)) % img.w)

/-- Modelled from the spec: one axis of `np.gradient` — central differences in
the interior, one-sided differences at the two ends of an axis of length `n`. -/
def np_grad1 (n : ℕ) (f : ℕ → ℝ) (i : ℕ) : ℝ :=
  if n ≤ 1 then 0
  else if i = 0 then f 1 - f 0
  else if i = n - 1 then f (n - 1) - f (n - 2)
  else (f (i + 1) - f (i - 1)) / 2

/-- Modelled from the spec: `set_boundary_pixels` — the gradient is zeroed on
the one-pixel boundary of the (full-rectangle) mask, because no reliable
derivative exists there. -/
def set_boundary_zero (h w : ℕ) (g : ℕ → ℕ → ℝ) (y x : ℕ) : ℝ :=
  if y = 0 ∨ y = h - 1 ∨ x = 0 ∨ x = w - 1 then 0 else g y x

/-- Modelled from the spec: the shared gradient helper
`Residual._calculate_gradients` in inverse-compositional mode (no forward
context): per-dimension (`d = 0`: along y, `d = 1`: along x), per-channel
derivative of the image with the mask-boundary pixels zeroed. -/
def calculate_gradients (img : Img) (d c y x : ℕ) : ℝ :=
  set_boundary_zero img.h img.w
    (fun y' x' =>
      if d = 0 then np_grad1 img.h (fun t => img.pix c t x') y'
      else np_grad1 img.w (fun t => img.pix c y' t) x') y x

/-- RMS-style `error` property of the abstract `Residual` base class: reading
it before any update has cached an error vector is undefined (`none`, the
Python object has no `_error_img` attribute yet); afterwards it returns
`sqrt(mean(E ** 2))` of the cached vector `E`. -/
def Residual.error {m : ℕ} : Option (Fin m → ℝ) → Option ℝ
  | none => none
  | some e => some (Real.sqrt ((∑ i, e i ^ 2) / m))

/-- Complex-state version of the `error` property, for the `GaborFourier`
variant whose cached error vector is complex: numpy then evaluates the same
formula `sqrt(mean(E ** 2))` with the complex square root. -/
def Residual.error_complex {m : ℕ} : Option (Fin m → ℂ) → Option ℂ
  | none => none
  | some e => some (np_csqrt ((∑ i, e i ^ 2) / (m : ℂ)))

/-- The five concrete subclasses of `Residual` in the source module. -/
inductive ResidualVariant
  | SSD
  | GaborFourier
  | ECC
  | GradientImages
  | GradientCorrelation
deriving DecidableEq

/-- Number of steepest-descent-image arguments each variant's
`calculate_hessian` signature accepts, read off the Python `def` lines:
`SSD.calculate_hessian(self, J, J2=None)` accepts up to two, the other four
variants are declared `calculate_hessian(self, sdi)` and accept exactly one. -/
def hessian_sdi_arity : ResidualVariant → ℕ
  | .SSD => 2
  | .GaborFourier => 1
  | .ECC => 1
  | .GradientImages => 1
  | .GradientCorrelation => 1

/-- Whether a variant's `calculate_hessian` accepts an optional second
steepest-descent matrix. -/
def acceptsSecondSDI (v : ResidualVariant) : Bool := 2 ≤ hessian_sdi_arity v

namespace SSD

/-- Row count of the steepest-descent matrix that `SSD.steepest_descent_images`
returns: the `(n_channels, n_pixels, n_params)` tensor is reshaped to
`(-1, n_params)`. -/
def sdi_nrows (n_ch n_px : ℕ) : ℕ := n_ch * n_px

/-- SSD steepest-descent images: the per-dimension gradient of the image is
multiplied against the warp Jacobian `dW_dp` (indexed dimension × pixel ×
parameter, as in the source's shape comment) and summed over the dimension
axis, then reshaped to `(n_channels * n_pixels) × n_params`.  Row `r` encodes
channel `r / n_pixels` and flat pixel `r % n_pixels`. -/
def steepest_descent_images (img : Img) (np' : ℕ)
    (dW_dp : ℕ → ℕ → Fin np' → ℝ) :
    Matrix (Fin (sdi_nrows img.ch (img.h * img.w))) (Fin np') ℝ :=
  Matrix.of fun r k =>
    ∑ d ∈ Finset.range 2,
      calculate_gradients img d (r.val / (img.h * img.w))
          ((r.val % (img.h * img.w)) / img.w) ((r.val % (img.h * img.w)) % img.w)
        * dW_dp d (r.val % (img.h * img.w)) k

/-- SSD Hessian: the Gram matrix `J^T J`, or the cross product `J^T J2` when a
second steepest-descent matrix is supplied. -/
def calculate_hessian {m np' : ℕ} (J : Matrix (Fin m) (Fin np') ℝ)
    (J2 : Option (Matrix (Fin m) (Fin np') ℝ)) : Matrix (Fin np') (Fin np') ℝ :=
  match J2 with
  | none => Jᵀ * J
  | some J2' => Jᵀ * J2'

/-- SSD update: caches the plain intensity difference of the two vectorised
images as the error image and returns `sdi^T · error`.  The prior cached state
`st` is taken (and ignored) to make explicit that the method reads no instance
state — it only overwrites `_error_img`. -/
def steepest_descent_update {m np' : ℕ} (st : Option (Fin m → ℝ))
    (sdi : Matrix (Fin m) (Fin np') ℝ) (IWxp template : Fin m → ℝ) :
    (Fin np' → ℝ) × Option (Fin m → ℝ) :=
  let _ := st
  let e := fun i => IWxp i - template i
  (sdiᵀ.mulVec e, some e)

end SSD

namespace ECC

/-- Row count of the ECC steepest-descent matrix (same reshape as SSD). -/
def sdi_nrows (n_ch n_px : ℕ) : ℕ := n_ch * n_px

/-- Modelled from the spec: `normalize_norm_inplace` on a vectorised image —
subtract the global mean, divide by the Euclidean norm of the centred values.
Returns `none` when that norm is zero (a constant image: numpy divides 0/0 and
fills the result with NaN). -/
def normalise_vec {m : ℕ} (v : Fin m → ℝ) : Option (Fin m → ℝ) :=
  let mu := (∑ i, v i) / m
  let c := fun i => v i - mu
  if np_norm c = 0 then none else some fun i => c i / np_norm c

/-- Modelled from the spec: whole-image zero-mean unit-norm normalisation
(`ECC._normalise_images`), as an image-to-image operation. -/
def normalise_img (img : Img) : Option Img :=
  let n := img.ch * (img.h * img.w)
  let mu := (∑ c ∈ Finset.range img.ch, ∑ y ∈ Finset.range img.h,
    ∑ x ∈ Finset.range img.w, img.pix c y x) / n
  let cent := fun c y x => img.pix c y x - mu
  let nrm := Real.sqrt (∑ c ∈ Finset.range img.ch, ∑ y ∈ Finset.range img.h,
    ∑ x ∈ Finset.range img.w, cent c y x ^ 2)
  if nrm = 0 then none
  else some ⟨img.h, img.w, img.ch, fun c y x => cent c y x / nrm⟩

/-- ECC steepest-descent images: identical to SSD's construction except that
the image is normalised first (so the step is undefined for a constant image,
whose normalisation divides by zero). -/
def steepest_descent_images (img : Img) (np' : ℕ)
    (dW_dp : ℕ → ℕ → Fin np' → ℝ) :
    Option (Matrix (Fin (sdi_nrows img.ch (img.h * img.w))) (Fin np') ℝ) :=
  (normalise_img img).map fun nimg =>
    Matrix.of fun r k =>
      ∑ d ∈ Finset.range 2,
        calculate_gradients nimg d (r.val / (img.h * img.w))
            ((r.val % (img.h * img.w)) / img.w)
            ((r.val % (img.h * img.w)) % img.w)
          * dW_dp d (r.val % (img.h * img.w)) k

/-- ECC Hessian: the Gram matrix `sdi^T sdi`; its inverse is computed at once
(`scipy.linalg.inv`) and cached for the update step, so the call fails
(`none`) when the Gram matrix is singular. -/
def calculate_hessian {m np' : ℕ} (sdi : Matrix (Fin m) (Fin np') ℝ) :
    Option (Matrix (Fin np') (Fin np') ℝ × Matrix (Fin np') (Fin np') ℝ) :=
  let H := sdiᵀ * sdi
  (scipy_inv H).map fun Hinv => (H, Hinv)

/-- Projection `sdi^T · v` of a normalised image vector through the
steepest-descent matrix (the code's `Gt` and `Gw` locals). -/
def proj {m np' : ℕ} (sdi : Matrix (Fin m) (Fin np') ℝ) (v : Fin m → ℝ) :
    Fin np' → ℝ := sdiᵀ.mulVec v

/-- The code's `num2` local: `Gw^T H_inv Gw`. -/
def num2 {m np' : ℕ} (Hinv : Matrix (Fin np') (Fin np') ℝ)
    (sdi : Matrix (Fin m) (Fin np') ℝ) (w : Fin m → ℝ) : ℝ :=
  proj sdi w ⬝ᵥ Hinv.mulVec (proj sdi w)

/-- The code's `den` local: `⟨template, warped⟩ - Gt^T H_inv Gw`. -/
def den {m np' : ℕ} (Hinv : Matrix (Fin np') (Fin np') ℝ)
    (sdi : Matrix (Fin m) (Fin np') ℝ) (w t : Fin m → ℝ) : ℝ :=
  t ⬝ᵥ w - proj sdi t ⬝ᵥ Hinv.mulVec (proj sdi w)

/-- The code's `den3` local: `Gt^T H_inv Gt` (only computed in the fallback
branch). -/
def den3 {m np' : ℕ} (Hinv : Matrix (Fin np') (Fin np') ℝ)
    (sdi : Matrix (Fin m) (Fin np') ℝ) (t : Fin m → ℝ) : ℝ :=
  proj sdi t ⬝ᵥ Hinv.mulVec (proj sdi t)

/-- Fallback step size of the degenerate (`den ≤ 0`) branch:
`max(sqrt(num2 / den3), -den / den3)`. -/
def lambda_fallback (n2 d d3 : ℝ) : ℝ :=
  max (Real.sqrt (n2 / d3)) (-d / d3)

/-- ECC update.  Both input images are normalised; four scalar projections
through the cached Hessian inverse select the step size `l`: `num/den` when
`den > 0`, otherwise the fallback `max(sqrt(num2/den3), -den/den3)`.  The
result is `none` exactly where numpy would produce non-finite values: a
constant input image (normalisation divides by zero), or a fallback branch
with `den3 = 0` (division by zero) or `num2/den3 < 0` (square root of a
negative).  Error image `l * warped - template` is cached and `sdi^T · error`
returned. -/
def steepest_descent_update {m np' : ℕ} (Hinv : Matrix (Fin np') (Fin np') ℝ)
    (sdi : Matrix (Fin m) (Fin np') ℝ) (IWxp template : Fin m → ℝ) :
    Option ((Fin np' → ℝ) × (Fin m → ℝ)) :=
  (normalise_vec IWxp).bind fun w =>
    (normalise_vec template).bind fun t =>
      let d := den Hinv sdi w t
      if 0 < d then
        let l := (np_norm w ^ 2 - num2 Hinv sdi w) / d
        let e := fun i => l * w i - t i
        some (sdiᵀ.mulVec e, e)
      else
        let d3 := den3 Hinv sdi t
        if d3 = 0 ∨ num2 Hinv sdi w / d3 < 0 then none
        else
          let l := lambda_fallback (num2 Hinv sdi w) d d3
          let e := fun i => l * w i - t i
          some (sdiᵀ.mulVec e, e)

end ECC

namespace GaborFourier

/-- Row count of the GaborFourier steepest-descent matrix: the shifted FFT is
computed on the full `height × width` rectangle, per channel, and the
`(h, w, ch·params)` array is reshaped to `(-1, params)`. -/
def sdi_nrows (n_ch n_h n_w : ℕ) : ℕ := n_h * n_w * n_ch

/-- Modelled from the spec: two-dimensional discrete Fourier transform over
the spatial axes (`np.fft.fftn(·, axes=(0, 1))`). -/
def dft2 (h w : ℕ) (f : ℕ → ℕ → ℂ) (k l : ℕ) : ℂ :=
  ∑ a ∈ Finset.range h, ∑ b ∈ Finset.range w,
    Complex.exp (-2 * Real.pi * Complex.I * ((k * a : ℕ) / (h : ℂ) + (l * b : ℕ) / (w : ℂ)))
      * f a b

/-- Modelled from the spec: `np.fft.fftshift` over both spatial axes — roll
each axis by half its length so the zero frequency sits at the centre. -/
def fftshift2 (h w : ℕ) (f : ℕ → ℕ → ℂ) (k l : ℕ) : ℂ :=
  f ((k + h - h / 2) % h) ((l + w - w / 2) % w)

/-- Centre-shifted spatial DFT, the composite used on steepest-descent and
error images. -/
def fft_shifted (h w : ℕ) (f : ℕ → ℕ → ℂ) : ℕ → ℕ → ℂ :=
  fftshift2 h w (dft2 h w f)

/-- GaborFourier construction.  An explicitly supplied filter bank is a pair
of its shape and its entries; a shape differing from the image shape raises a
`ValueError` immediately (`none`), before any per-iteration computation.
Without an explicit bank the external log-Gabor design (`gen`, modelled from
the spec) is invoked.  The accepted bank is stored flattened (row-major). -/
def init (image_shape : ℕ × ℕ) (filter_bank : Option ((ℕ × ℕ) × (ℕ → ℕ → ℝ)))
    (gen : ℕ × ℕ → ℕ → ℕ → ℝ) : Option (ℕ → ℝ) :=
  match filter_bank with
  | some (s, fb) =>
      if s ≠ image_shape then none
      else some fun i => fb (i / image_shape.2) (i % image_shape.2)
  | none => some fun i => gen image_shape (i / image_shape.2) (i % image_shape.2)

/-- GaborFourier steepest-descent images: the SSD-style contraction is kept
per channel (this variant's Jacobian is laid out pixel × param × dim, as in
its shape comments), materialised as an image and transformed by the shifted
spatial DFT per channel and parameter; the `(h, w, ch·params)` result is
reshaped to `(h·w·ch) × params`, row `r` encoding pixel `r / ch` (row-major)
and channel `r % ch`. -/
def steepest_descent_images (img : Img) (np' : ℕ)
    (dW_dp : ℕ → Fin np' → ℕ → ℝ) :
    Matrix (Fin (sdi_nrows img.ch img.h img.w)) (Fin np') ℂ :=
  let sdi : ℕ → ℕ → Fin np' → ℝ := fun p c k =>
    ∑ d ∈ Finset.range 2,
      dW_dp p k d * calculate_gradients img d c (p / img.w) (p % img.w)
  Matrix.of fun r k =>
    fft_shifted img.h img.w
      (fun y x => (sdi (y * img.w + x) (r.val % img.ch) k : ℂ))
      (r.val / img.ch / img.w) (r.val / img.ch % img.w)

/-- The sqrt-weighted steepest-descent matrix of the Hessian step: the SDI is
reshaped to `(-1, n_pixels, n_params)` and each pixel row is scaled by the
square root of the filter bank weight, so flat row `r` is scaled by
`sqrt(fb (r % n_pixels))`. -/
def filtered_sdi {M np' : ℕ} (px : ℕ) (fb : ℕ → ℝ)
    (sdi : Matrix (Fin M) (Fin np') ℂ) : Matrix (Fin M) (Fin np') ℂ :=
  Matrix.of fun r k => (Real.sqrt (fb (r.val % px)) : ℂ) * sdi r k

/-- GaborFourier Hessian: `np.conjugate(filtered_sdi).T.dot(filtered_sdi)`,
written as the entrywise sum the matrix product computes. -/
def calculate_hessian {M np' : ℕ} (px : ℕ) (fb : ℕ → ℝ)
    (sdi : Matrix (Fin M) (Fin np') ℂ) : Matrix (Fin np') (Fin np') ℂ :=
  Matrix.of fun k1 k2 =>
    ∑ r, star (filtered_sdi px fb sdi r k1) * filtered_sdi px fb sdi r k2

/-- GaborFourier update: the intensity error image is transformed by the same
shifted spatial DFT, reshaped to `(n_pixels × n_channels)`, multiplied
elementwise by the full (unsquare-rooted) filter bank, flattened (row
`r = p·ch + c`, weight `fb p`) and cached as the error vector; the update is
`sdi^T · conjugate(error)`. -/
def steepest_descent_update {np' : ℕ} (fb : ℕ → ℝ) (IWxp template : Img)
    (sdi : Matrix (Fin (sdi_nrows IWxp.ch IWxp.h IWxp.w)) (Fin np') ℂ) :
    (Fin np' → ℂ) × (Fin (sdi_nrows IWxp.ch IWxp.h IWxp.w) → ℂ) :=
  let err : ℕ → ℕ → ℕ → ℝ := fun c y x => IWxp.pix c y x - template.pix c y x
  let ffterr : ℕ → ℕ → ℕ → ℂ := fun c y x =>
    fft_shifted IWxp.h IWxp.w (fun a b => (err c a b : ℂ)) y x
  let e : Fin (sdi_nrows IWxp.ch IWxp.h IWxp.w) → ℂ := fun r =>
    (fb (r.val / IWxp.ch) : ℂ)
      * ffterr (r.val % IWxp.ch) (r.val / IWxp.ch / IWxp.w) (r.val / IWxp.ch % IWxp.w)
  (sdiᵀ.mulVec fun r => star (e r), e)

end GaborFourier

namespace GradientImages

/-- Row count of the GradientImages steepest-descent matrix: the contraction
sums only over the outer first-derivative axis, leaving a
`(n_dims, n_channels, n_pixels, n_params)` tensor that reshapes to
`(n_dims·n_channels·n_pixels) × n_params`. -/
def sdi_nrows (n_dims n_ch n_px : ℕ) : ℕ := n_dims * (n_ch * n_px)

/-- `_regularise_gradients`: each pixel's gradient vector is divided by its
magnitude (`ab`, over all gradient channels) plus the median magnitude over
the image.  `none` when some divisor is zero (for a zero gradient field the
code divides 0/0 and numpy fills the array with NaN). -/
def regularise_gradients (img_h img_w nch : ℕ) (g : ℕ → ℕ → ℕ → ℝ) :
    Option (ℕ → ℕ → ℕ → ℝ) :=
  let ab : ℕ → ℕ → ℝ := fun y x => Real.sqrt (∑ c ∈ Finset.range nch, g c y x ^ 2)
  let m := np_median ((List.range (img_h * img_w)).map fun p => ab (p / img_w) (p % img_w))
  if ∃ p ∈ Finset.range (img_h * img_w), ab (p / img_w) (p % img_w) + m = 0 then none
  else some fun c y x => g c y x / (ab y x + m)

/-- GradientImages steepest-descent images: regularise the template's
gradient, cache it, differentiate the regularised gradient field again,
enforce `dydx = dxdy`, and contract the second-order field with the Jacobian
over the outer derivative axis only.  Returns the cached regularised template
gradient alongside the SDI; `none` when the regularisation divides by zero. -/
def steepest_descent_images (img : Img) (np' : ℕ)
    (dW_dp : ℕ → ℕ → Fin np' → ℝ) :
    Option ((ℕ → ℕ → ℕ → ℝ)
      × Matrix (Fin (sdi_nrows 2 img.ch (img.h * img.w))) (Fin np') ℝ) :=
  let g : ℕ → ℕ → ℕ → ℝ := fun c' y x =>
    calculate_gradients img (c' / img.ch) (c' % img.ch) y x
  (regularise_gradients img.h img.w (2 * img.ch) g).map fun tg =>
    let gradimg : Img := ⟨img.h, img.w, 2 * img.ch, tg⟩
    let sg : ℕ → ℕ → ℕ → ℕ → ℝ := fun d1 d2 c p =>
      calculate_gradients gradimg d1 (d2 * img.ch + c) (p / img.w) (p % img.w)
    let fixed : ℕ → ℕ → ℕ → ℕ → ℝ := fun d1 d2 c p =>
      if d1 = 1 ∧ d2 = 0 then sg 0 1 c p else sg d1 d2 c p
    (tg, Matrix.of fun r k =>
      let px := img.h * img.w
      let d2 := r.val / (img.ch * px)
      let c := r.val % (img.ch * px) / px
      let p := r.val % px
      ∑ d1 ∈ Finset.range 2, fixed d1 d2 c p * dW_dp d1 p k)

/-- GradientImages Hessian: the plain Gram matrix of the (second-order)
steepest-descent matrix. -/
def calculate_hessian {m np' : ℕ} (sdi : Matrix (Fin m) (Fin np') ℝ) :
    Matrix (Fin np') (Fin np') ℝ :=
  sdiᵀ * sdi

/-- GradientImages update: the warped image's gradient is regularised the same
way; the error vector is the difference of the flattened regularised gradient
fields (not intensities); update `sdi^T · error`.  `none` when the
regularisation divides by zero. -/
def steepest_descent_update {np' : ℕ} (IWxp : Img)
    (template_grad : ℕ → ℕ → ℕ → ℝ)
    (sdi : Matrix (Fin (sdi_nrows 2 IWxp.ch (IWxp.h * IWxp.w))) (Fin np') ℝ) :
    Option ((Fin np' → ℝ) × (Fin (sdi_nrows 2 IWxp.ch (IWxp.h * IWxp.w)) → ℝ)) :=
  let g : ℕ → ℕ → ℕ → ℝ := fun c' y x =>
    calculate_gradients IWxp (c' / IWxp.ch) (c' % IWxp.ch) y x
  (regularise_gradients IWxp.h IWxp.w (2 * IWxp.ch) g).map fun rg =>
    let px := IWxp.h * IWxp.w
    let e : Fin (sdi_nrows 2 IWxp.ch px) → ℝ := fun r =>
      rg (r.val / px) (r.val % px / IWxp.w) (r.val % px % IWxp.w)
        - template_grad (r.val / px) (r.val % px / IWxp.w) (r.val % px % IWxp.w)
    (sdiᵀ.mulVec e, e)

end GradientImages

namespace GradientCorrelation

/-- Per-instance cached state written by
`GradientCorrelation.steepest_descent_images`: the template's orientation
cosines and sines (per channel, per flat pixel) and the pixel count
`N = height * width`. -/
structure State where
  cos_phi : ℕ → ℕ → ℝ
  sin_phi : ℕ → ℕ → ℝ
  N : ℝ

/-- Row count of the GradientCorrelation steepest-descent matrix (the
four-slab contraction collapses to `(n_channels, n_pixels, n_params)`). -/
def sdi_nrows (n_ch n_px : ℕ) : ℕ := n_ch * n_px

/-- Image-gradient-orientation angle of channel `c` at flat pixel `p`:
`np.angle(grad_x + 1j * grad_y)` of the boundary-zeroed gradient (axis 0 of
the gradient is y, axis 1 is x). -/
def igo_angles (img : Img) (c p : ℕ) : ℝ :=
  np_angle (calculate_gradients img 1 c (p / img.w) (p % img.w))
    (calculate_gradients img 0 c (p / img.w) (p % img.w))

/-- The code's `qp` local: the orientation-correlation sum
`Σ (cos_t·cos_w + sin_t·sin_w)` over all channels and pixels. -/
def qp (st : State) (n_ch n_px : ℕ) (cosW sinW : ℕ → ℕ → ℝ) : ℝ :=
  ∑ c ∈ Finset.range n_ch, ∑ p ∈ Finset.range n_px,
    (st.cos_phi c p * cosW c p + st.sin_phi c p * sinW c p)

/-- GradientCorrelation steepest-descent images: cache `cos`/`sin` of the
template's orientation angles and `N = h·w`; differentiate the concatenated
`[sin(phi); cos(phi)]` image again, enforce `dydx = dxdy`, scale the `d1 = 1`
slab by `-sin(phi)` and the `d1 = 0` slab by `cos(phi)`, and contract all four
`(d1, d2)` slabs with the Jacobian. -/
def steepest_descent_images (img : Img) (np' : ℕ)
    (dW_dp : ℕ → ℕ → Fin np' → ℝ) :
    State × Matrix (Fin (sdi_nrows img.ch (img.h * img.w))) (Fin np') ℝ :=
  let cosA : ℕ → ℕ → ℝ := fun c p => Real.cos (igo_angles img c p)
  let sinA : ℕ → ℕ → ℝ := fun c p => Real.sin (igo_angles img c p)
  let igimg : Img := ⟨img.h, img.w, 2 * img.ch, fun c' y x =>
    if c' < img.ch then sinA c' (y * img.w + x)
    else cosA (c' - img.ch) (y * img.w + x)⟩
  let sg : ℕ → ℕ → ℕ → ℕ → ℝ := fun d1 d2 c p =>
    calculate_gradients igimg d1 (d2 * img.ch + c) (p / img.w) (p % img.w)
  let fixed : ℕ → ℕ → ℕ → ℕ → ℝ := fun d1 d2 c p =>
    if d1 = 1 ∧ d2 = 0 then sg 0 1 c p else sg d1 d2 c p
  let corrected : ℕ → ℕ → ℕ → ℕ → ℝ := fun d1 d2 c p =>
    if d1 = 1 then -sinA c p * fixed 1 d2 c p else cosA c p * fixed 0 d2 c p
  let sdi := Matrix.of fun r k =>
    let px := img.h * img.w
    ∑ d1 ∈ Finset.range 2, ∑ d2 ∈ Finset.range 2,
      corrected d1 d2 (r.val / px) (r.val % px) * dW_dp d1 (r.val % px) k
  (⟨cosA, sinA, ((img.h * img.w : ℕ) : ℝ)⟩, sdi)

/-- GradientCorrelation Hessian: the plain Gram matrix. -/
def calculate_hessian {m np' : ℕ} (sdi : Matrix (Fin m) (Fin np') ℝ) :
    Matrix (Fin np') (Fin np') ℝ :=
  sdiᵀ * sdi

/-- GradientCorrelation update: orientation angles of the warped image give
`(cos_w, sin_w)`; the cached error is the wrapped angular difference
`cos_t·sin_w - sin_t·cos_w = sin(phi_w - phi_t)`; the raw update
`sdi^T · error` is scaled by `l = N / qp`. -/
def steepest_descent_update {np' : ℕ} (st : State) (IWxp : Img)
    (sdi : Matrix (Fin (sdi_nrows IWxp.ch (IWxp.h * IWxp.w))) (Fin np') ℝ) :
    (Fin np' → ℝ) × (Fin (sdi_nrows IWxp.ch (IWxp.h * IWxp.w)) → ℝ) :=
  let px := IWxp.h * IWxp.w
  let cosW : ℕ → ℕ → ℝ := fun c p => Real.cos (igo_angles IWxp c p)
  let sinW : ℕ → ℕ → ℝ := fun c p => Real.sin (igo_angles IWxp c p)
  let e : Fin (sdi_nrows IWxp.ch px) → ℝ := fun r =>
    st.cos_phi (r.val / px) (r.val % px) * sinW (r.val / px) (r.val % px)
      - st.sin_phi (r.val / px) (r.val % px) * cosW (r.val / px) (r.val % px)
  let sdu := sdiᵀ.mulVec e
  let l := st.N / qp st IWxp.ch px cosW sinW
  (l • sdu, e)

end GradientCorrelation

/-- Concrete 6×4 steepest-descent matrix whose columns are the first four
standard basis vectors of `ℝ^6`: its Gram matrix is the 4×4 identity, so the
mandated ECC `calculate_hessian` call succeeds on it. -/
def sdi6 : Matrix (Fin 6) (Fin 4) ℝ :=
  Matrix.of fun i k => if i.val = k.val then 1 else 0

/-- Concrete six-pixel template vector: zero mean, orthogonal to every column
of `sdi6` (so its SDI projection `Gt` vanishes). -/
def T6 : Fin 6 → ℝ := ![0, 0, 0, 0, 1, -1]

/-- The negated `T6`, used as the warped image: the two normalised vectors
have inner product `-1`, forcing the ECC fallback branch. -/
def W6 : Fin 6 → ℝ := ![0, 0, 0, 0, -1, 1]

/-- Concrete six-pixel template vector with a nonzero SDI projection (its
fourth coordinate meets a column of `sdi6`). -/
def T6b : Fin 6 → ℝ := ![0, 0, 0, 1, 0, -1]

/-- The negated `T6b`, used as the warped image in the fallback witness. -/
def W6b : Fin 6 → ℝ := ![0, 0, 0, -1, 0, 1]

/-- Concrete single-channel constant 2×2 image. -/
def img2c1 : Img := ⟨2, 2, 1, fun _ _ _ => 1⟩

/-- Concrete two-channel constant 2×2 image. -/
def img2c2 : Img := ⟨2, 2, 2, fun _ _ _ => 1⟩

/-- All-zero 1-parameter warp Jacobian (dimension × pixel × param layout). -/
def J01 : ℕ → ℕ → Fin 1 → ℝ := fun _ _ _ => 0

/-- The concrete scenario image of the spec's section 8: one channel, 2-D,
8×8, constant intensity. -/
def img8 : Img := ⟨8, 8, 1, fun _ _ _ => 1⟩

/-- The all-zero 4-parameter warp Jacobian, in the dimension × pixel × param
layout consumed by SSD, ECC, GradientImages and GradientCorrelation. -/
def J0 : ℕ → ℕ → Fin 4 → ℝ := fun _ _ _ => 0

/-- The all-zero 4-parameter warp Jacobian in the pixel × param × dimension
layout consumed by GaborFourier. -/
def J0g : ℕ → Fin 4 → ℕ → ℝ := fun _ _ _ => 0

/-- Gradient of a constant-intensity image vanishes everywhere: every finite
difference of equal values is zero, and boundary pixels are zeroed anyway. -/
lemma calculate_gradients_const (h w ch : ℕ) (k : ℝ) (d c y x : ℕ) :
    calculate_gradients ⟨h, w, ch, fun _ _ _ => k⟩ d c y x = 0 := by
  unfold calculate_gradients set_boundary_zero np_grad1
  split_ifs <;> norm_num

/-- C3 counterexample: the claim asserts that every residual variant's
`calculate_hessian` accepts an optional second steepest-descent matrix, but
`ECC.calculate_hessian(self, sdi)` is declared with a single SDI parameter
and accepts no second one. -/
theorem C3_counterexample : acceptsSecondSDI ResidualVariant.ECC = false := rfl

/-- C3 (amended): only the SSD variant's `calculate_hessian` accepts an
optional second steepest-descent matrix — returning the cross product
`J^T · J2` when it is supplied and the Gram matrix `J^T · J` when it is
omitted; the other four variants' signatures accept exactly one SDI. -/
theorem C3_optional_second_sdi :
    (∀ (m np' : ℕ) (J J2 : Matrix (Fin m) (Fin np') ℝ),
        SSD.calculate_hessian J (some J2) = Jᵀ * J2) ∧
    (∀ (m np' : ℕ) (J : Matrix (Fin m) (Fin np') ℝ),
        SSD.calculate_hessian J none = Jᵀ * J) ∧
    acceptsSecondSDI ResidualVariant.SSD = true ∧
    acceptsSecondSDI ResidualVariant.GaborFourier = false ∧
    acceptsSecondSDI ResidualVariant.GradientImages = false ∧
    acceptsSecondSDI ResidualVariant.GradientCorrelation = false :=
  ⟨fun _ _ _ _ => rfl, fun _ _ _ => rfl, rfl, rfl, rfl, rfl⟩

/-- C4: GaborFourier construction with an explicitly supplied filter bank
fails immediately (before any per-iteration computation) exactly when the
bank's shape differs from the image shape; with a matching shape it succeeds
and stores the row-major-flattened filter bank. -/
theorem C4_gabor_filter_bank_shape :
    ∀ (image_shape s : ℕ × ℕ) (fb : ℕ → ℕ → ℝ) (gen : ℕ × ℕ → ℕ → ℕ → ℝ),
      GaborFourier.init image_shape (some (s, fb)) gen =
        if s = image_shape
        then some fun i => fb (i / image_shape.2) (i % image_shape.2)
        else none := by
  intro ishape s fb gen
  unfold GaborFourier.init
  split_ifs <;> simp_all

/-- C10: `SSD.steepest_descent_update` reads no cached instance state — its
result is `sdi^T · (IWxp - template)` whatever the prior state (including the
fresh state `none`, so the call succeeds before `steepest_descent_images` or
`calculate_hessian` has ever run), and its only effect is overwriting the
cached error vector with that intensity difference. -/
theorem C10_ssd_update_stateless :
    ∀ (m np' : ℕ) (st st' : Option (Fin m → ℝ)) (sdi : Matrix (Fin m) (Fin np') ℝ)
      (IWxp template : Fin m → ℝ),
      (SSD.steepest_descent_update st sdi IWxp template).1 =
          (SSD.steepest_descent_update st' sdi IWxp template).1 ∧
      (SSD.steepest_descent_update st sdi IWxp template).1 =
          sdiᵀ.mulVec (fun i => IWxp i - template i) ∧
      (SSD.steepest_descent_update st sdi IWxp template).2 =
          some (fun i => IWxp i - template i) :=
  fun _ _ _ _ _ _ _ => ⟨rfl, rfl, rfl⟩

/-- C6: for SSD, ECC, GradientImages and GradientCorrelation, the matrix
returned by `calculate_hessian` with no second SDI equals its own transpose,
exactly, for every steepest-descent matrix (hence for every input image and
warp Jacobian that produced it); for ECC this covers every case in which the
call returns at all. -/
theorem C6_hessian_symmetric :
    ∀ (m np' : ℕ) (sdi : Matrix (Fin m) (Fin np') ℝ),
      (SSD.calculate_hessian sdi none)ᵀ = SSD.calculate_hessian sdi none ∧
      ((ECC.calculate_hessian sdi).map fun p => p.1ᵀ) =
        ((ECC.calculate_hessian sdi).map fun p => p.1) ∧
      (GradientImages.calculate_hessian sdi)ᵀ = GradientImages.calculate_hessian sdi ∧
      (GradientCorrelation.calculate_hessian sdi)ᵀ =
        GradientCorrelation.calculate_hessian sdi := by
  intro m np' sdi
  have h : (sdiᵀ * sdi)ᵀ = sdiᵀ * sdi := by
    rw [Matrix.transpose_mul, Matrix.transpose_transpose]
  refine ⟨h, ?_, h, h⟩
  unfold ECC.calculate_hessian
  rcases hsi : scipy_inv (sdiᵀ * sdi) with _ | Hi <;> simp [hsi, h]

/-- C5: for every residual variant, the error vector `E` cached by
`steepest_descent_update` makes the `error` property read
`sqrt(mean(E ** 2))` (via the complex square root for GaborFourier, whose
cached error vector is complex); before any update call no error vector is
cached and the property yields no result. -/
theorem C5_error_rms :
    (∀ m : ℕ, Residual.error (m := m) none = none) ∧
    (∀ m : ℕ, Residual.error_complex (m := m) none = none) ∧
    (∀ (m np' : ℕ) (st : Option (Fin m → ℝ)) (sdi : Matrix (Fin m) (Fin np') ℝ)
        (a b : Fin m → ℝ),
        Residual.error (SSD.steepest_descent_update st sdi a b).2 =
          some (Real.sqrt ((∑ i, (a i - b i) ^ 2) / m))) ∧
    (∀ (np' : ℕ) (fb : ℕ → ℝ) (IWxp template : Img)
        (sdi : Matrix (Fin (GaborFourier.sdi_nrows IWxp.ch IWxp.h IWxp.w)) (Fin np') ℂ),
        Residual.error_complex
            (some (GaborFourier.steepest_descent_update fb IWxp template sdi).2) =
          some (np_csqrt
            ((∑ r, (GaborFourier.steepest_descent_update fb IWxp template sdi).2 r ^ 2)
              / (GaborFourier.sdi_nrows IWxp.ch IWxp.h IWxp.w : ℂ)))) ∧
    (∀ (m np' : ℕ) (Hinv : Matrix (Fin np') (Fin np') ℝ)
        (sdi : Matrix (Fin m) (Fin np') ℝ) (a b : Fin m → ℝ),
        Residual.error ((ECC.steepest_descent_update Hinv sdi a b).map Prod.snd) =
          (ECC.steepest_descent_update Hinv sdi a b).map fun rE =>
            Real.sqrt ((∑ i, rE.2 i ^ 2) / m)) ∧
    (∀ (np' : ℕ) (IWxp : Img) (tg : ℕ → ℕ → ℕ → ℝ)
        (sdi : Matrix (Fin (GradientImages.sdi_nrows 2 IWxp.ch (IWxp.h * IWxp.w)))
          (Fin np') ℝ),
        Residual.error ((GradientImages.steepest_descent_update IWxp tg sdi).map Prod.snd) =
          (GradientImages.steepest_descent_update IWxp tg sdi).map fun rE =>
            Real.sqrt ((∑ i, rE.2 i ^ 2)
              / (GradientImages.sdi_nrows 2 IWxp.ch (IWxp.h * IWxp.w)))) ∧
    (∀ (np' : ℕ) (st : GradientCorrelation.State) (IWxp : Img)
        (sdi : Matrix (Fin (GradientCorrelation.sdi_nrows IWxp.ch (IWxp.h * IWxp.w)))
          (Fin np') ℝ),
        Residual.error (some (GradientCorrelation.steepest_descent_update st IWxp sdi).2) =
          some (Real.sqrt
            ((∑ r, (GradientCorrelation.steepest_descent_update st IWxp sdi).2 r ^ 2)
              / (GradientCorrelation.sdi_nrows IWxp.ch (IWxp.h * IWxp.w))))) := by
  refine ⟨fun _ => rfl, fun _ => rfl, fun _ _ _ _ _ _ => rfl, fun _ _ _ _ _ => rfl,
    ?_, ?_, fun _ _ _ _ => rfl⟩
  · intro m np' Hinv sdi a b
    rcases h : ECC.steepest_descent_update Hinv sdi a b with _ | rE <;> simp [Residual.error]
  · intro np' IWxp tg sdi
    rcases h : GradientImages.steepest_descent_update IWxp tg sdi with _ | rE <;>
      simp [Residual.error]

/-- Median of a list all of whose entries are zero is zero. -/
lemma np_median_all_zero (l : List ℝ) (h : ∀ x ∈ l, x = 0) : np_median l = 0 := by
  have hs : ∀ x ∈ l.mergeSort (· ≤ ·), x = 0 := fun x hx =>
    h x ((List.mergeSort_perm l (· ≤ ·)).mem_iff.mp hx)
  have hg : ∀ k : ℕ, (l.mergeSort (· ≤ ·))[k]?.getD 0 = 0 := by
    intro k
    rcases h' : (l.mergeSort (· ≤ ·))[k]? with _ | a
    · rfl
    · simpa using hs a (List.getElem?_mem h')
  unfold np_median
  split_ifs <;> simp [List.getD, hg]

/-- Gradients of the constant scenario image vanish. -/
lemma img8_grad_zero (d c y x : ℕ) : calculate_gradients img8 d c y x = 0 :=
  calculate_gradients_const 8 8 1 1 d c y x

/-- C1 counterexample: at the spec's concrete scenario (constant 8×8 image,
all-zero 4-parameter Jacobian, template equal to the image) the mandated
`steepest_descent_images` call already fails for two of the five variants, so
they cannot return the required zero update or error 0.0.  ECC's whole-image
normalisation divides by the zero norm of the centred constant image (numpy
fills the array with NaN, and the subsequent `calculate_hessian` raises on
it), and GradientImages' gradient regularisation divides the all-zero
gradient by magnitude-plus-median = 0 (numpy produces NaN). -/
theorem C1_counterexample :
    ECC.steepest_descent_images img8 4 J0 = none ∧
    GradientImages.steepest_descent_images img8 4 J0 = none := by
  constructor
  · have hn : ECC.normalise_img img8 = none := by
      simp only [ECC.normalise_img]
      split_ifs with h
      · rfl
      · exfalso
        apply h
        have h1 : (∑ c ∈ Finset.range img8.ch, ∑ y ∈ Finset.range img8.h,
            ∑ x ∈ Finset.range img8.w, img8.pix c y x) = 64 := by
          simp [img8]
          norm_num
        rw [h1]
        have h2 : ∀ c y x : ℕ,
            img8.pix c y x - 64 / ((img8.ch * (img8.h * img8.w) : ℕ) : ℝ) = 0 := by
          intro c y x
          simp [img8]
        simp only [h2]
        simp
    unfold ECC.steepest_descent_images
    rw [hn]
    rfl
  · have hgf : (fun c' y x => calculate_gradients img8 (c' / img8.ch) (c' % img8.ch) y x) =
        fun _ _ _ => (0 : ℝ) := by
      funext c' y x
      exact img8_grad_zero _ _ _ _
    have hreg : GradientImages.regularise_gradients img8.h img8.w (2 * img8.ch)
        (fun _ _ _ => (0 : ℝ)) = none := by
      simp only [GradientImages.regularise_gradients]
      split_ifs with h
      · rfl
      · exfalso
        apply h
        have hm0 : np_median ((List.range (img8.h * img8.w)).map fun _ =>
            Real.sqrt (∑ _c ∈ Finset.range (2 * img8.ch), (0 : ℝ) ^ 2)) = 0 := by
          apply np_median_all_zero
          intro x hx
          rcases List.mem_map.mp hx with ⟨p, _, hp⟩
          rw [← hp]
          simp
        exact ⟨0, Finset.mem_range.mpr (by simp [img8]), by simp_all⟩
    simp only [GradientImages.steepest_descent_images]
    rw [hgf, hreg]
    rfl

/-- C1 (amended): at the spec's concrete scenario (1-channel 8×8
constant-intensity image, 4-parameter all-zero warp Jacobian, template equal
to the image, calling `steepest_descent_update` with the steepest-descent
matrix from the mandated `steepest_descent_images` call), the SSD,
GaborFourier and GradientCorrelation variants return the 4-length all-zero
update and the `error` property then reads exactly 0; the ECC and
GradientImages variants do not return the zero vector — their mandated
pipelines hit divisions by zero on this degenerate input (see the
counterexample). -/
theorem C1_zero_update_scenario :
    (∀ st : Option (Fin (SSD.sdi_nrows img8.ch (img8.h * img8.w)) → ℝ),
      (SSD.steepest_descent_update st (SSD.steepest_descent_images img8 4 J0)
          img8.as_vector img8.as_vector).1 = 0 ∧
      Residual.error (SSD.steepest_descent_update st (SSD.steepest_descent_images img8 4 J0)
          img8.as_vector img8.as_vector).2 = some 0) ∧
    (∀ fb : ℕ → ℝ,
      (GaborFourier.steepest_descent_update fb img8 img8
          (GaborFourier.steepest_descent_images img8 4 J0g)).1 = 0 ∧
      Residual.error_complex (some (GaborFourier.steepest_descent_update fb img8 img8
          (GaborFourier.steepest_descent_images img8 4 J0g)).2) = some 0) ∧
    ((GradientCorrelation.steepest_descent_update
        (GradientCorrelation.steepest_descent_images img8 4 J0).1 img8
        (GradientCorrelation.steepest_descent_images img8 4 J0).2).1 = 0 ∧
      Residual.error (some (GradientCorrelation.steepest_descent_update
        (GradientCorrelation.steepest_descent_images img8 4 J0).1 img8
        (GradientCorrelation.steepest_descent_images img8 4 J0).2).2) = some 0) := by
  refine ⟨fun st => ⟨?_, ?_⟩, fun fb => ⟨?_, ?_⟩, ⟨?_, ?_⟩⟩
  · funext k
    simp [SSD.steepest_descent_update, Matrix.mulVec, Matrix.dotProduct]
  · simp only [SSD.steepest_descent_update, Residual.error]
    norm_num
  · have hfz : ∀ y x : ℕ,
        GaborFourier.fft_shifted img8.h img8.w (fun _ _ => (0 : ℂ)) y x = 0 := by
      intro y x
      simp [GaborFourier.fft_shifted, GaborFourier.fftshift2, GaborFourier.dft2]
    funext k
    simp [GaborFourier.steepest_descent_update, Matrix.mulVec, Matrix.dotProduct, hfz]
  · have hfz : ∀ y x : ℕ,
        GaborFourier.fft_shifted img8.h img8.w (fun _ _ => (0 : ℂ)) y x = 0 := by
      intro y x
      simp [GaborFourier.fft_shifted, GaborFourier.fftshift2, GaborFourier.dft2]
    have hcs : np_csqrt 0 = 0 := by
      unfold np_csqrt
      rw [Complex.zero_cpow (by norm_num)]
    simp only [GaborFourier.steepest_descent_update, Residual.error_complex]
    simp [hfz, hcs]
  · funext k
    simp only [GradientCorrelation.steepest_descent_update,
      GradientCorrelation.steepest_descent_images]
    simp [Matrix.mulVec, Matrix.dotProduct, mul_comm]
  · simp only [GradientCorrelation.steepest_descent_update,
      GradientCorrelation.steepest_descent_images, Residual.error]
    norm_num [mul_comm]

/-- Successful ECC Hessian calls determine the cached quantities: the returned
matrix is the Gram matrix, the cached inverse is its matrix inverse, and the
Gram matrix is nonsingular. -/
lemma ECC_calculate_hessian_some {m np' : ℕ} {sdi : Matrix (Fin m) (Fin np') ℝ}
    {H Hinv : Matrix (Fin np') (Fin np') ℝ}
    (h : ECC.calculate_hessian sdi = some (H, Hinv)) :
    H = sdiᵀ * sdi ∧ Hinv = (sdiᵀ * sdi)⁻¹ ∧ (sdiᵀ * sdi).det ≠ 0 := by
  simp only [ECC.calculate_hessian, scipy_inv] at h
  split_ifs at h with hd
  · simp at h
  · simp only [Option.map_some'] at h
    rw [Option.some.injEq, Prod.mk.injEq] at h
    exact ⟨h.1.symm, h.2.symm, hd⟩

/-- Quadratic form of the inverse of a nonsingular Gram matrix is nonnegative:
`v^T (sdi^T sdi)^{-1} v = |sdi y|^2 ≥ 0` for `y = (sdi^T sdi)^{-1} v`. -/
lemma quadform_gram_inv_nonneg {m np' : ℕ} (sdi : Matrix (Fin m) (Fin np') ℝ)
    (hdet : (sdiᵀ * sdi).det ≠ 0) (v : Fin np' → ℝ) :
    0 ≤ v ⬝ᵥ (sdiᵀ * sdi)⁻¹.mulVec v := by
  set y := (sdiᵀ * sdi)⁻¹.mulVec v with hy
  have hHy : (sdiᵀ * sdi).mulVec y = v := by
    rw [hy, Matrix.mulVec_mulVec, Matrix.mul_nonsing_inv _ (isUnit_iff_ne_zero.mpr hdet),
      Matrix.one_mulVec]
  have key : v ⬝ᵥ y = (sdi.mulVec y) ⬝ᵥ (sdi.mulVec y) := by
    conv_lhs => rw [← hHy]
    rw [← Matrix.mulVec_mulVec, Matrix.dotProduct_comm, Matrix.dotProduct_mulVec,
      Matrix.vecMul_transpose]
  rw [key]
  unfold Matrix.dotProduct
  exact Finset.sum_nonneg fun i _ => mul_self_nonneg _

/-- C2 (amended): in the ECC fallback branch — `den` not strictly positive,
after a successful `calculate_hessian` has cached the inverse Gram matrix and
both images normalise — no exception is raised and the step size is the
well-defined (finite) `max(sqrt(num2/den3), -den/den3)` PROVIDED `den3 ≠ 0`:
nonnegativity of `num2` and `den3` follows from positive semidefiniteness of
the inverse Gram matrix, so neither division nor square root degenerates.
The claim as stated omits the `den3 ≠ 0` proviso and is refuted by the
counterexample, where `Gt = 0` makes `den3 = 0` and numpy's divisions by zero
produce non-finite values. -/
theorem C2_ecc_fallback_branch {m np' : ℕ} (sdi : Matrix (Fin m) (Fin np') ℝ)
    (H Hinv : Matrix (Fin np') (Fin np') ℝ) (IWxp template w t : Fin m → ℝ)
    (hH : ECC.calculate_hessian sdi = some (H, Hinv))
    (hw : ECC.normalise_vec IWxp = some w)
    (ht : ECC.normalise_vec template = some t)
    (hden : ¬ 0 < ECC.den Hinv sdi w t)
    (hden3 : ECC.den3 Hinv sdi t ≠ 0) :
    ECC.steepest_descent_update Hinv sdi IWxp template =
      some (sdiᵀ.mulVec (fun i =>
          ECC.lambda_fallback (ECC.num2 Hinv sdi w) (ECC.den Hinv sdi w t)
            (ECC.den3 Hinv sdi t) * w i - t i),
        fun i =>
          ECC.lambda_fallback (ECC.num2 Hinv sdi w) (ECC.den Hinv sdi w t)
            (ECC.den3 Hinv sdi t) * w i - t i) := by
  obtain ⟨hHa, hHinv, hdet⟩ := ECC_calculate_hessian_some hH
  have hnum2 : 0 ≤ ECC.num2 Hinv sdi w := by
    unfold ECC.num2
    rw [hHinv]
    exact quadform_gram_inv_nonneg sdi hdet _
  have hden3nn : 0 ≤ ECC.den3 Hinv sdi t := by
    unfold ECC.den3
    rw [hHinv]
    exact quadform_gram_inv_nonneg sdi hdet _
  have hden3pos : 0 < ECC.den3 Hinv sdi t := hden3nn.lt_of_ne (Ne.symm hden3)
  have hguard : ¬ (ECC.den3 Hinv sdi t = 0 ∨
      ECC.num2 Hinv sdi w / ECC.den3 Hinv sdi t < 0) :=
    not_or.mpr ⟨hden3, not_lt.mpr (div_nonneg hnum2 hden3pos.le)⟩
  unfold ECC.steepest_descent_update
  rw [hw, ht]
  simp only [Option.some_bind]
  rw [if_neg hden, if_neg hguard]

/-- Normalisation of a zero-mean vector with Euclidean norm `s ≠ 0` divides
every coordinate by `s`. -/
lemma normalise_vec_eq {m : ℕ} (v : Fin m → ℝ) (s : ℝ)
    (hmu : (∑ i, v i) = 0) (hs : Real.sqrt (∑ i, v i ^ 2) = s) (hs0 : s ≠ 0) :
    ECC.normalise_vec v = some fun i => v i / s := by
  simp only [ECC.normalise_vec, np_norm, hmu, zero_div, sub_zero, hs]
  rw [if_neg hs0]

/-- Sixth entry of a six-entry vector literal. -/
lemma vec6_at5 (a0 a1 a2 a3 a4 a5 : ℝ) : (![a0, a1, a2, a3, a4, a5] : Fin 6 → ℝ) 5 = a5 :=
  rfl

/-- Product of two halves scaled by the square root of two. -/
lemma div_sqrt2_mul (a b : ℝ) :
    a / Real.sqrt 2 * (b / Real.sqrt 2) = a * b / 2 := by
  rw [div_mul_div_comm, Real.mul_self_sqrt (by norm_num)]

/-- Square of the inverse square root of two. -/
lemma inv_sqrt2_mul : (Real.sqrt 2)⁻¹ * (Real.sqrt 2)⁻¹ = 1 / 2 := by
  rw [← mul_inv, Real.mul_self_sqrt (by norm_num)]
  norm_num

/-- The Gram matrix of `sdi6` is the identity, so ECC's Hessian call succeeds
with `H = H_inv = 1`. -/
lemma sdi6_hessian : ECC.calculate_hessian sdi6 = some (1, 1) := by
  have hH : sdi6ᵀ * sdi6 = (1 : Matrix (Fin 4) (Fin 4) ℝ) := by
    ext a b
    rw [Matrix.mul_apply]
    fin_cases a <;> fin_cases b <;>
      norm_num [sdi6, Matrix.one_apply, Fin.sum_univ_six,
        show ((3 : Fin 6) : ℕ) = 3 from rfl, show ((4 : Fin 6) : ℕ) = 4 from rfl,
        show ((5 : Fin 6) : ℕ) = 5 from rfl, Fin.ext_iff]
  simp only [ECC.calculate_hessian, scipy_inv]
  rw [hH, if_neg (by simp)]
  simp

/-- The `sdi6` projection lists the first four coordinates of a vector. -/
lemma proj_sdi6 (v : Fin 6 → ℝ) : ECC.proj sdi6 v = ![v 0, v 1, v 2, v 3] := by
  funext k
  fin_cases k <;>
    norm_num [ECC.proj, sdi6, Matrix.mulVec, Matrix.dotProduct, Fin.sum_univ_six,
      show ((3 : Fin 6) : ℕ) = 3 from rfl, show ((4 : Fin 6) : ℕ) = 4 from rfl,
      show ((5 : Fin 6) : ℕ) = 5 from rfl, Fin.ext_iff]

/-- Square of the square root of two. -/
lemma sqrt2_mul_self : Real.sqrt 2 * Real.sqrt 2 = 2 :=
  Real.mul_self_sqrt (by norm_num)

/-- Normalised form of the template `T6`. -/
lemma normalise_T6 : ECC.normalise_vec T6 = some fun i => T6 i / Real.sqrt 2 := by
  apply normalise_vec_eq
  · norm_num [T6, Fin.sum_univ_six, vec6_at5]
  · norm_num [T6, Fin.sum_univ_six, vec6_at5]
  · exact Real.sqrt_ne_zero'.mpr (by norm_num)

/-- Normalised form of the warped image `W6`. -/
lemma normalise_W6 : ECC.normalise_vec W6 = some fun i => W6 i / Real.sqrt 2 := by
  apply normalise_vec_eq
  · norm_num [W6, Fin.sum_univ_six, vec6_at5]
  · norm_num [W6, Fin.sum_univ_six, vec6_at5]
  · exact Real.sqrt_ne_zero'.mpr (by norm_num)

/-- The normalised `T6` is orthogonal to the columns of `sdi6`. -/
lemma proj_T6_zero : ECC.proj sdi6 (fun i => T6 i / Real.sqrt 2) = 0 := by
  rw [proj_sdi6]
  funext k
  fin_cases k <;> simp [T6]

/-- C2 counterexample: with the concrete `sdi6` (whose Gram matrix is the
identity, so the mandated `calculate_hessian` call succeeds), warped image
`W6` and template `T6` (both of which normalise successfully), the
denominator `den = -1 ≤ 0` selects the fallback branch, yet `Gt = 0` makes
`den3 = 0`: numpy evaluates `num2/den3 = 0/0` (NaN) and `-den/den3 = 1/0`
(inf), so the branch does not yield a finite step size — the update is
undefined, refuting "always yields a finite lambda". -/
theorem C2_counterexample :
    ECC.calculate_hessian sdi6 = some (1, 1) ∧
    ECC.den3 (1 : Matrix (Fin 4) (Fin 4) ℝ) sdi6 (fun i => T6 i / Real.sqrt 2) = 0 ∧
    ¬ 0 < ECC.den (1 : Matrix (Fin 4) (Fin 4) ℝ) sdi6
      (fun i => W6 i / Real.sqrt 2) (fun i => T6 i / Real.sqrt 2) ∧
    ECC.steepest_descent_update (1 : Matrix (Fin 4) (Fin 4) ℝ) sdi6 W6 T6 = none := by
  have hden3 : ECC.den3 (1 : Matrix (Fin 4) (Fin 4) ℝ) sdi6
      (fun i => T6 i / Real.sqrt 2) = 0 := by
    unfold ECC.den3
    rw [proj_T6_zero]
    simp
  have hden : ECC.den (1 : Matrix (Fin 4) (Fin 4) ℝ) sdi6
      (fun i => W6 i / Real.sqrt 2) (fun i => T6 i / Real.sqrt 2) = -1 := by
    unfold ECC.den
    rw [proj_T6_zero, Matrix.zero_dotProduct, sub_zero]
    simp only [Matrix.dotProduct, Fin.sum_univ_six, div_sqrt2_mul]
    norm_num [T6, W6, vec6_at5]
  refine ⟨sdi6_hessian, hden3, by rw [hden]; norm_num, ?_⟩
  unfold ECC.steepest_descent_update
  rw [normalise_W6, normalise_T6]
  simp only [Option.some_bind]
  rw [if_neg (by rw [hden]; norm_num), if_pos (Or.inl hden3)]

/-- Projection of the normalised `T6b` through `sdi6`. -/
lemma proj_T6b : ECC.proj sdi6 (fun i => T6b i / Real.sqrt 2) =
    ![0, 0, 0, 1 / Real.sqrt 2] := by
  rw [proj_sdi6]
  funext k
  fin_cases k <;> simp [T6b]

/-- Projection of the normalised `W6b` through `sdi6`. -/
lemma proj_W6b : ECC.proj sdi6 (fun i => W6b i / Real.sqrt 2) =
    ![0, 0, 0, -1 / Real.sqrt 2] := by
  rw [proj_sdi6]
  funext k
  fin_cases k <;> simp [W6b]

/-- Normalised form of the template `T6b`. -/
lemma normalise_T6b : ECC.normalise_vec T6b = some fun i => T6b i / Real.sqrt 2 := by
  apply normalise_vec_eq
  · norm_num [T6b, Fin.sum_univ_six, vec6_at5]
  · norm_num [T6b, Fin.sum_univ_six, vec6_at5]
  · exact Real.sqrt_ne_zero'.mpr (by norm_num)

/-- Normalised form of the warped image `W6b`. -/
lemma normalise_W6b : ECC.normalise_vec W6b = some fun i => W6b i / Real.sqrt 2 := by
  apply normalise_vec_eq
  · norm_num [W6b, Fin.sum_univ_six, vec6_at5]
  · norm_num [W6b, Fin.sum_univ_six, vec6_at5]
  · exact Real.sqrt_ne_zero'.mpr (by norm_num)

/-- Fallback denominator `den3` at the witness data is `1/2`, not zero. -/
lemma den3_T6b : ECC.den3 (1 : Matrix (Fin 4) (Fin 4) ℝ) sdi6
    (fun i => T6b i / Real.sqrt 2) = 1 / 2 := by
  unfold ECC.den3
  rw [proj_T6b, Matrix.one_mulVec]
  simp only [Matrix.dotProduct, Fin.sum_univ_four]
  have h1 : (![0, 0, 0, 1 / Real.sqrt 2] : Fin 4 → ℝ) 3 = 1 / Real.sqrt 2 := rfl
  norm_num [h1, div_sqrt2_mul, inv_sqrt2_mul]

/-- Denominator `den` at the witness data is `-1/2 ≤ 0`. -/
lemma den_W6b_T6b : ECC.den (1 : Matrix (Fin 4) (Fin 4) ℝ) sdi6
    (fun i => W6b i / Real.sqrt 2) (fun i => T6b i / Real.sqrt 2) = -(1 / 2) := by
  unfold ECC.den
  rw [proj_T6b, proj_W6b, Matrix.one_mulVec]
  have h1 : (![0, 0, 0, 1 / Real.sqrt 2] : Fin 4 → ℝ) 3 = 1 / Real.sqrt 2 := rfl
  have h2 : (![0, 0, 0, -1 / Real.sqrt 2] : Fin 4 → ℝ) 3 = -1 / Real.sqrt 2 := rfl
  simp only [Matrix.dotProduct, Fin.sum_univ_six, Fin.sum_univ_four, h1, h2,
    neg_div, div_sqrt2_mul, mul_neg, neg_neg]
  norm_num [T6b, W6b, vec6_at5, div_sqrt2_mul, inv_sqrt2_mul]

/-- Witness for C2: at the concrete witness data (`sdi6` with identity Gram
matrix, warped image `W6b`, template `T6b`) the fallback branch is taken
(`den = -1/2 ≤ 0`), `den3 = 1/2 ≠ 0`, and the update succeeds with the
amended fallback step size. -/
theorem C2_ecc_fallback_branch_witness :
    ECC.steepest_descent_update (1 : Matrix (Fin 4) (Fin 4) ℝ) sdi6 W6b T6b =
      some (sdi6ᵀ.mulVec (fun i =>
          ECC.lambda_fallback (ECC.num2 1 sdi6 (fun i => W6b i / Real.sqrt 2))
            (ECC.den 1 sdi6 (fun i => W6b i / Real.sqrt 2) (fun i => T6b i / Real.sqrt 2))
            (ECC.den3 1 sdi6 (fun i => T6b i / Real.sqrt 2)) * (W6b i / Real.sqrt 2)
          - T6b i / Real.sqrt 2),
        fun i =>
          ECC.lambda_fallback (ECC.num2 1 sdi6 (fun i => W6b i / Real.sqrt 2))
            (ECC.den 1 sdi6 (fun i => W6b i / Real.sqrt 2) (fun i => T6b i / Real.sqrt 2))
            (ECC.den3 1 sdi6 (fun i => T6b i / Real.sqrt 2)) * (W6b i / Real.sqrt 2)
          - T6b i / Real.sqrt 2) := by
  apply C2_ecc_fallback_branch sdi6 1 1 W6b T6b (fun i => W6b i / Real.sqrt 2)
    (fun i => T6b i / Real.sqrt 2) sdi6_hessian normalise_W6b normalise_T6b
  · rw [den_W6b_T6b]
    norm_num
  · rw [den3_T6b]
    norm_num

/-- Product form of the Pythagorean identity. -/
lemma cos_mul_add_sin_mul (a : ℝ) :
    Real.cos a * Real.cos a + Real.sin a * Real.sin a = 1 := by
  rw [← Real.cos_sq_add_sin_sq a, pow_two, pow_two]

/-- C8 (amended): `GradientCorrelation.steepest_descent_update` returns
`lambda * (SDI^T · error)` with `lambda = N / qp`, `N` the cached pixel count
and `qp = Σ (cos_t·cos_w + sin_t·sin_w)` over all channels and pixels; when
the warped image's gradient-orientation angles equal the cached template
angles at every channel and pixel, the error vector is all zeros, the update
is the zero vector, and `qp = n_channels · N` — each of the
`n_channels · n_pixels` summands is `cos² + sin² = 1` — so `lambda` equals
`1/n_channels`, which is 1 exactly for single-channel images (the claim's
`qp = N`, `lambda = 1` holds only there; see the counterexample). -/
theorem C8_gc_lambda (img : Img) (pw : ℕ → ℕ → ℕ → ℝ) (np' : ℕ)
    (dW_dp : ℕ → ℕ → Fin np' → ℝ)
    (hang : ∀ c p : ℕ, GradientCorrelation.igo_angles ⟨img.h, img.w, img.ch, pw⟩ c p =
      GradientCorrelation.igo_angles img c p)
    (hpos : 0 < img.h * img.w) :
    (∀ (st' : GradientCorrelation.State)
        (sdi : Matrix (Fin (GradientCorrelation.sdi_nrows img.ch (img.h * img.w)))
          (Fin np') ℝ),
        (GradientCorrelation.steepest_descent_update st' ⟨img.h, img.w, img.ch, pw⟩ sdi).1 =
          (st'.N / GradientCorrelation.qp st' img.ch (img.h * img.w)
              (fun c p => Real.cos (GradientCorrelation.igo_angles
                ⟨img.h, img.w, img.ch, pw⟩ c p))
              (fun c p => Real.sin (GradientCorrelation.igo_angles
                ⟨img.h, img.w, img.ch, pw⟩ c p))) •
            (sdiᵀ.mulVec (GradientCorrelation.steepest_descent_update st'
              ⟨img.h, img.w, img.ch, pw⟩ sdi).2)) ∧
    (∀ sdi : Matrix (Fin (GradientCorrelation.sdi_nrows img.ch (img.h * img.w)))
        (Fin np') ℝ,
        (GradientCorrelation.steepest_descent_update
          (GradientCorrelation.steepest_descent_images img np' dW_dp).1
          ⟨img.h, img.w, img.ch, pw⟩ sdi).2 = 0) ∧
    (GradientCorrelation.qp (GradientCorrelation.steepest_descent_images img np' dW_dp).1
        img.ch (img.h * img.w)
        (fun c p => Real.cos (GradientCorrelation.igo_angles ⟨img.h, img.w, img.ch, pw⟩ c p))
        (fun c p => Real.sin (GradientCorrelation.igo_angles ⟨img.h, img.w, img.ch, pw⟩ c p)) =
      ((img.ch * (img.h * img.w) : ℕ) : ℝ)) ∧
    (∀ sdi : Matrix (Fin (GradientCorrelation.sdi_nrows img.ch (img.h * img.w)))
        (Fin np') ℝ,
        (GradientCorrelation.steepest_descent_update
          (GradientCorrelation.steepest_descent_images img np' dW_dp).1
          ⟨img.h, img.w, img.ch, pw⟩ sdi).1 = 0) ∧
    (img.ch = 1 →
      (GradientCorrelation.steepest_descent_images img np' dW_dp).1.N /
        GradientCorrelation.qp (GradientCorrelation.steepest_descent_images img np' dW_dp).1
          img.ch (img.h * img.w)
          (fun c p => Real.cos (GradientCorrelation.igo_angles ⟨img.h, img.w, img.ch, pw⟩ c p))
          (fun c p => Real.sin (GradientCorrelation.igo_angles ⟨img.h, img.w, img.ch, pw⟩ c p))
        = 1) := by
  have hformula : ∀ (st' : GradientCorrelation.State)
      (sdi : Matrix (Fin (GradientCorrelation.sdi_nrows img.ch (img.h * img.w)))
        (Fin np') ℝ),
      (GradientCorrelation.steepest_descent_update st' ⟨img.h, img.w, img.ch, pw⟩ sdi).1 =
        (st'.N / GradientCorrelation.qp st' img.ch (img.h * img.w)
            (fun c p => Real.cos (GradientCorrelation.igo_angles
              ⟨img.h, img.w, img.ch, pw⟩ c p))
            (fun c p => Real.sin (GradientCorrelation.igo_angles
              ⟨img.h, img.w, img.ch, pw⟩ c p))) •
          (sdiᵀ.mulVec (GradientCorrelation.steepest_descent_update st'
            ⟨img.h, img.w, img.ch, pw⟩ sdi).2) :=
    fun st' sdi => rfl
  have herr : ∀ sdi : Matrix (Fin (GradientCorrelation.sdi_nrows img.ch (img.h * img.w)))
      (Fin np') ℝ,
      (GradientCorrelation.steepest_descent_update
        (GradientCorrelation.steepest_descent_images img np' dW_dp).1
        ⟨img.h, img.w, img.ch, pw⟩ sdi).2 = 0 := by
    intro sdi
    funext r
    simp only [GradientCorrelation.steepest_descent_update,
      GradientCorrelation.steepest_descent_images, Pi.zero_apply]
    simp only [hang]
    ring
  have hqp : GradientCorrelation.qp
      (GradientCorrelation.steepest_descent_images img np' dW_dp).1
      img.ch (img.h * img.w)
      (fun c p => Real.cos (GradientCorrelation.igo_angles ⟨img.h, img.w, img.ch, pw⟩ c p))
      (fun c p => Real.sin (GradientCorrelation.igo_angles ⟨img.h, img.w, img.ch, pw⟩ c p)) =
      ((img.ch * (img.h * img.w) : ℕ) : ℝ) := by
    simp only [GradientCorrelation.qp, GradientCorrelation.steepest_descent_images]
    simp only [hang, cos_mul_add_sin_mul]
    simp only [Finset.sum_const, Finset.card_range, nsmul_eq_mul, mul_one]
    push_cast
    ring
  refine ⟨hformula, herr, hqp, fun sdi => ?_, fun hch => ?_⟩
  · rw [hformula _ sdi, herr sdi, Matrix.mulVec_zero, smul_zero]
  · have hN : (GradientCorrelation.steepest_descent_images img np' dW_dp).1.N =
        ((img.h * img.w : ℕ) : ℝ) := by
      simp only [GradientCorrelation.steepest_descent_images]
    rw [hN, hqp, hch, one_mul]
    exact div_self (by exact_mod_cast hpos.ne')

/-- Witness for C8: the single-channel 2×2 constant image warped to itself
(equal orientation angles everywhere, by reflexivity): the update vector is
zero and `lambda = N / qp = 1` exactly. -/
theorem C8_gc_lambda_witness :
    (∀ sdi : Matrix (Fin (GradientCorrelation.sdi_nrows img2c1.ch (img2c1.h * img2c1.w)))
        (Fin 1) ℝ,
        (GradientCorrelation.steepest_descent_update
          (GradientCorrelation.steepest_descent_images img2c1 1 J01).1
          ⟨img2c1.h, img2c1.w, img2c1.ch, fun _ _ _ => 1⟩ sdi).1 = 0) ∧
    (GradientCorrelation.steepest_descent_images img2c1 1 J01).1.N /
      GradientCorrelation.qp (GradientCorrelation.steepest_descent_images img2c1 1 J01).1
        img2c1.ch (img2c1.h * img2c1.w)
        (fun c p => Real.cos (GradientCorrelation.igo_angles
          ⟨img2c1.h, img2c1.w, img2c1.ch, fun _ _ _ => 1⟩ c p))
        (fun c p => Real.sin (GradientCorrelation.igo_angles
          ⟨img2c1.h, img2c1.w, img2c1.ch, fun _ _ _ => 1⟩ c p)) = 1 := by
  have h := C8_gc_lambda img2c1 (fun _ _ _ => 1) 1 J01 (fun c p => rfl)
    (by norm_num [img2c1])
  exact ⟨h.2.2.2.1, h.2.2.2.2 rfl⟩

/-- Orientation angles of the constant two-channel image are all zero (its
gradient vanishes and `np.angle(0) = 0`). -/
lemma img2c2_angles_zero (c p : ℕ) : GradientCorrelation.igo_angles img2c2 c p = 0 := by
  unfold GradientCorrelation.igo_angles
  rw [show calculate_gradients img2c2 1 c (p / img2c2.w) (p % img2c2.w) = 0 from
      calculate_gradients_const 2 2 2 1 _ _ _ _,
    show calculate_gradients img2c2 0 c (p / img2c2.w) (p % img2c2.w) = 0 from
      calculate_gradients_const 2 2 2 1 _ _ _ _]
  unfold np_angle
  simp

/-- C8 counterexample: for the 2-channel 2×2 constant image warped to itself
— the warped orientation angles equal the cached template angles at every
pixel, both being zero — the correlation term sums over channels as well as
pixels: `qp = 8` while the cached pixel count is `N = h·w = 4`, so
`lambda = N/qp = 1/2 ≠ 1`, refuting "qp equals N exactly and lambda equals
1". -/
theorem C8_counterexample :
    GradientCorrelation.qp (GradientCorrelation.steepest_descent_images img2c2 1 J01).1
        img2c2.ch (img2c2.h * img2c2.w)
        (fun c p => Real.cos (GradientCorrelation.igo_angles img2c2 c p))
        (fun c p => Real.sin (GradientCorrelation.igo_angles img2c2 c p)) = 8 ∧
    (GradientCorrelation.steepest_descent_images img2c2 1 J01).1.N = 4 ∧
    (GradientCorrelation.steepest_descent_images img2c2 1 J01).1.N /
      GradientCorrelation.qp (GradientCorrelation.steepest_descent_images img2c2 1 J01).1
        img2c2.ch (img2c2.h * img2c2.w)
        (fun c p => Real.cos (GradientCorrelation.igo_angles img2c2 c p))
        (fun c p => Real.sin (GradientCorrelation.igo_angles img2c2 c p)) ≠ 1 := by
  have hqp : GradientCorrelation.qp
      (GradientCorrelation.steepest_descent_images img2c2 1 J01).1
      img2c2.ch (img2c2.h * img2c2.w)
      (fun c p => Real.cos (GradientCorrelation.igo_angles img2c2 c p))
      (fun c p => Real.sin (GradientCorrelation.igo_angles img2c2 c p)) = 8 := by
    simp only [GradientCorrelation.qp, GradientCorrelation.steepest_descent_images]
    simp only [img2c2_angles_zero]
    norm_num [img2c2]
  have hN : (GradientCorrelation.steepest_descent_images img2c2 1 J01).1.N = 4 := by
    simp only [GradientCorrelation.steepest_descent_images]
    norm_num [img2c2]
  refine ⟨hqp, hN, ?_⟩
  rw [hqp, hN]
  norm_num

/-- C9 counterexample: for a 2-D single-channel image with four pixels,
GradientImages' steepest-descent matrix has `2 * (1 * 4) = 8` rows (see the
result type of `GradientImages.steepest_descent_images`), not
`n_channels * n_pixels = 4` as the claim requires of every variant. -/
theorem C9_counterexample : GradientImages.sdi_nrows 2 1 4 ≠ 1 * 4 := by
  norm_num [GradientImages.sdi_nrows]

/-- C9 (amended): the steepest-descent matrices have `n_params` columns and
row counts as fixed by each variant's reshape (these constants index the
result types of the `steepest_descent_images` definitions):
`n_channels·n_pixels` for SSD, ECC and GradientCorrelation;
`h·w·n_channels` (the full rectangle) for GaborFourier; and
`n_dims·(n_channels·n_pixels)` — an extra factor of the spatial dimension
count — for GradientImages. -/
theorem C9_sdi_shape : ∀ n_ch n_px n_h n_w : ℕ,
    SSD.sdi_nrows n_ch n_px = n_ch * n_px ∧
    ECC.sdi_nrows n_ch n_px = n_ch * n_px ∧
    GradientCorrelation.sdi_nrows n_ch n_px = n_ch * n_px ∧
    GaborFourier.sdi_nrows n_ch n_h n_w = n_h * n_w * n_ch ∧
    GradientImages.sdi_nrows 2 n_ch n_px = 2 * (n_ch * n_px) :=
  fun _ _ _ _ => ⟨rfl, rfl, rfl, rfl, rfl⟩

/-- C7: GaborFourier applies its frequency weighting asymmetrically.  The
Hessian is the conjugate-transpose Gram matrix of the steepest-descent matrix
whose pixel rows are scaled by the square root of the filter-bank weight; the
update instead multiplies the shifted-FFT error image elementwise by the full
(unsquare-rooted) filter bank, caches that as the error vector, and returns
`SDI^T · conjugate(error)`. -/
theorem C7_gabor_asymmetric_weighting :
    (∀ (M np' px : ℕ) (fb : ℕ → ℝ) (sdi : Matrix (Fin M) (Fin np') ℂ),
        GaborFourier.filtered_sdi px fb sdi =
          Matrix.of (fun r k => (Real.sqrt (fb (r.val % px)) : ℂ) * sdi r k) ∧
        GaborFourier.calculate_hessian px fb sdi =
          (GaborFourier.filtered_sdi px fb sdi)ᴴ * GaborFourier.filtered_sdi px fb sdi) ∧
    (∀ (np' : ℕ) (fb : ℕ → ℝ) (IWxp template : Img)
        (sdi : Matrix (Fin (GaborFourier.sdi_nrows IWxp.ch IWxp.h IWxp.w)) (Fin np') ℂ),
        (GaborFourier.steepest_descent_update fb IWxp template sdi).2 = (fun r =>
          (fb (r.val / IWxp.ch) : ℂ) *
            GaborFourier.fft_shifted IWxp.h IWxp.w
              (fun a b =>
                ((IWxp.pix (r.val % IWxp.ch) a b - template.pix (r.val % IWxp.ch) a b : ℝ) : ℂ))
              (r.val / IWxp.ch / IWxp.w) (r.val / IWxp.ch % IWxp.w)) ∧
        (GaborFourier.steepest_descent_update fb IWxp template sdi).1 =
          sdiᵀ.mulVec fun r =>
            star ((GaborFourier.steepest_descent_update fb IWxp template sdi).2 r)) := by
  constructor
  · intro M np' px fb sdi
    refine ⟨rfl, ?_⟩
    ext k1 k2
    rw [Matrix.mul_apply]
    rfl
  · intro np' fb IWxp template sdi
    exact ⟨rfl, rfl⟩

end
